import Mathlib

/-!
Verification of the rating, matchmaking and vote/delete logic of a
browser-based pairwise-voting application (`src/firebaseConfig.js`).

The embedding models:
* the ELO rating engine (`calculateExpected`, `updateElo`) over exact real
  arithmetic (the source computes with IEEE doubles; the claims are settled
  in the exact model),
* the vote transaction (`handleVote`) over an association-list store,
* the match selector (`getNextMatch`) with the random draws of
  `Math.random()` passed in explicitly as rationals in `[0, 1)`,
* the delete operation (`handleDelete`) as the sequence of mutating
  actions it performs, so that failure points between the two deletes are
  expressible as prefixes of that sequence.
-/

namespace MangaApp

/-! ## RatingEngine (source lines 104–110) -/

/-- Source: `const K_FACTOR = 32;` -/
def K_FACTOR : ℝ := 32

/-- Source: `calculateExpected = (ratingA, ratingB) => 1 / (1 + Math.pow(10, (ratingB - ratingA) / 400))`. -/
noncomputable def calculateExpected (ratingA ratingB : ℝ) : ℝ :=
  1 / (1 + (10 : ℝ) ^ ((ratingB - ratingA) / 400))

/-- Source: `updateElo = (oldRating, expected, score) => Math.floor(oldRating + K_FACTOR * (score - expected))`. -/
noncomputable def updateElo (oldRating : ℤ) (expected score : ℝ) : ℤ :=
  ⌊(oldRating : ℝ) + K_FACTOR * (score - expected)⌋

/-- The base of the logistic term is positive. -/
lemma rpow_term_pos (ratingA ratingB : ℝ) :
    0 < (10 : ℝ) ^ ((ratingB - ratingA) / 400) :=
  Real.rpow_pos_of_pos (by norm_num) _

/-- Denominator of `calculateExpected` is nonzero. -/
lemma one_add_rpow_ne_zero (ratingA ratingB : ℝ) :
    1 + (10 : ℝ) ^ ((ratingB - ratingA) / 400) ≠ 0 := by
  have h := rpow_term_pos ratingA ratingB
  linarith

/-- Expected scores of the two sides of a match always sum to 1 exactly. -/
lemma calculateExpected_add_swap (a b : ℝ) :
    calculateExpected a b + calculateExpected b a = 1 := by
  unfold calculateExpected
  have hb : 0 < (10 : ℝ) ^ ((b - a) / 400) := rpow_term_pos a b
  have hrw : (10 : ℝ) ^ ((a - b) / 400) = ((10 : ℝ) ^ ((b - a) / 400))⁻¹ := by
    rw [show (a - b) / 400 = -((b - a) / 400) by ring, Real.rpow_neg (by norm_num)]
  rw [hrw]
  field_simp
  ring

/-- With equal ratings the expected score is exactly one half. -/
lemma calculateExpected_self (r : ℝ) : calculateExpected r r = 1 / 2 := by
  unfold calculateExpected
  rw [show (r - r) / 400 = (0 : ℝ) by ring, Real.rpow_zero]
  norm_num

/-- Floor evaluation for the winner of a 1500-vs-1500 match. -/
lemma updateElo_equal_win : updateElo 1500 (calculateExpected 1500 1500) 1 = 1516 := by
  unfold updateElo K_FACTOR
  rw [calculateExpected_self]
  rw [show ((1500 : ℤ) : ℝ) + 32 * ((1 : ℝ) - 1 / 2) = ((1516 : ℤ) : ℝ) by norm_num]
  exact Int.floor_intCast 1516

/-- Floor evaluation for the loser of a 1500-vs-1500 match. -/
lemma updateElo_equal_loss : updateElo 1500 (calculateExpected 1500 1500) 0 = 1484 := by
  unfold updateElo K_FACTOR
  rw [calculateExpected_self]
  rw [show ((1500 : ℤ) : ℝ) + 32 * ((0 : ℝ) - 1 / 2) = ((1484 : ℤ) : ℝ) by norm_num]
  exact Int.floor_intCast 1484

/-- Claim C1: for every integer `oldRating`, real `expected`, and
`actualScore ∈ {1, 0}` (win or loss), `updateElo` returns
`⌊oldRating + 32 * (actualScore - expected)⌋`; in particular for a winner
and loser both rated 1500 (expected one half each) the new ratings are
1516 and 1484. -/
theorem updateElo_is_floor_formula (oldRating : ℤ) (expected score : ℝ)
    (hscore : score = 1 ∨ score = 0) :
    updateElo oldRating expected score =
      ⌊(oldRating : ℝ) + 32 * (score - expected)⌋ ∧
    updateElo 1500 (calculateExpected 1500 1500) 1 = 1516 ∧
    updateElo 1500 (calculateExpected 1500 1500) 0 = 1484 := by
  refine ⟨?_, updateElo_equal_win, updateElo_equal_loss⟩
  unfold updateElo K_FACTOR
  rfl

/-- Witness for C1 at `oldRating = 1500`, `expected = 1/2`, `score = 1`. -/
theorem updateElo_is_floor_formula_witness :
    ((1 : ℝ) = 1 ∨ (1 : ℝ) = 0) ∧
    (updateElo 1500 (1 / 2) 1 = ⌊((1500 : ℤ) : ℝ) + 32 * ((1 : ℝ) - 1 / 2)⌋ ∧
     updateElo 1500 (calculateExpected 1500 1500) 1 = 1516 ∧
     updateElo 1500 (calculateExpected 1500 1500) 0 = 1484) :=
  ⟨Or.inl rfl, updateElo_is_floor_formula 1500 (1 / 2) 1 (Or.inl rfl)⟩

/-- Claim C3: for all ratings `a` and `b`, the two expected scores sum to
exactly 1 in the exact-arithmetic embedding. -/
theorem calculateExpected_symm_sum (a b : ℝ) :
    calculateExpected a b + calculateExpected b a = 1 :=
  calculateExpected_add_swap a b

/-! ## The 1000-vs-1500 matchup (claim C2)

The rating gap is 500, so the logistic term is `10 ^ (5/4) ≈ 17.78`; we
bound it between 16 and 19 by comparing fourth powers. -/

/-- Fourth power of `10 ^ (5/4)` is `10^5`. -/
lemma rpow_five_quarters_pow_four :
    ((10 : ℝ) ^ ((5 : ℝ) / 4)) ^ (4 : ℕ) = 100000 := by
  rw [← Real.rpow_natCast ((10 : ℝ) ^ ((5 : ℝ) / 4)) 4,
    ← Real.rpow_mul (by norm_num : (0 : ℝ) ≤ 10)]
  rw [show (5 : ℝ) / 4 * (4 : ℕ) = ((5 : ℕ) : ℝ) by push_cast; ring]
  rw [Real.rpow_natCast]
  norm_num

/-- Lower bound `16 < 10 ^ (5/4)`. -/
lemma rpow_five_quarters_gt : (16 : ℝ) < (10 : ℝ) ^ ((5 : ℝ) / 4) := by
  by_contra h
  push_neg at h
  have h4 : ((10 : ℝ) ^ ((5 : ℝ) / 4)) ^ (4 : ℕ) ≤ (16 : ℝ) ^ (4 : ℕ) :=
    pow_le_pow_left₀ (Real.rpow_pos_of_pos (by norm_num) _).le h 4
  rw [rpow_five_quarters_pow_four] at h4
  norm_num at h4

/-- Upper bound `10 ^ (5/4) < 19`. -/
lemma rpow_five_quarters_lt : (10 : ℝ) ^ ((5 : ℝ) / 4) < 19 := by
  by_contra h
  push_neg at h
  have h4 : (19 : ℝ) ^ (4 : ℕ) ≤ ((10 : ℝ) ^ ((5 : ℝ) / 4)) ^ (4 : ℕ) :=
    pow_le_pow_left₀ (by norm_num) h 4
  rw [rpow_five_quarters_pow_four] at h4
  norm_num at h4

/-- The expected score of the 1000-rated side against a 1500-rated side,
written in terms of the logistic term `t = 10 ^ (5/4)`. -/
lemma calculateExpected_1000_1500 :
    calculateExpected 1000 1500 = 1 / (1 + (10 : ℝ) ^ ((5 : ℝ) / 4)) := by
  unfold calculateExpected
  norm_num

/-- Bounds on the underdog's expected score: strictly between 1/20 and 1/17. -/
lemma expected_1000_1500_bounds :
    1 / 20 < calculateExpected 1000 1500 ∧ calculateExpected 1000 1500 < 1 / 17 := by
  rw [calculateExpected_1000_1500]
  have h1 := rpow_five_quarters_gt
  have h2 := rpow_five_quarters_lt
  constructor
  · rw [div_lt_div_iff₀ (by norm_num) (by linarith)]
    linarith
  · rw [div_lt_div_iff₀ (by linarith) (by norm_num)]
    linarith

/-- The winner's new rating in the 1000-vs-1500 upset is 1030. -/
lemma updateElo_upset_win :
    updateElo 1000 (calculateExpected 1000 1500) 1 = 1030 := by
  have hb := expected_1000_1500_bounds
  unfold updateElo K_FACTOR
  rw [Int.floor_eq_iff]
  constructor
  · push_cast
    nlinarith [hb.2]
  · push_cast
    nlinarith [hb.1]

/-- The loser's new rating in the 1000-vs-1500 upset is 1469. -/
lemma updateElo_upset_loss :
    updateElo 1500 (calculateExpected 1500 1000) 0 = 1469 := by
  have hsum := calculateExpected_add_swap 1000 1500
  have hb := expected_1000_1500_bounds
  unfold updateElo K_FACTOR
  rw [Int.floor_eq_iff]
  constructor
  · push_cast
    nlinarith [hb.1, hb.2, hsum]
  · push_cast
    nlinarith [hb.1, hb.2, hsum]

/-- Counterexample to claim C2 as stated: in the 1000-vs-1500 upset the
winner's new rating is 1030, not 1029, and the expected score is below
0.06, hence not approximately 0.0909. -/
theorem upset_ratings_counterexample :
    updateElo 1000 (calculateExpected 1000 1500) 1 ≠ 1029 ∧
    calculateExpected 1000 1500 < 7 / 100 := by
  constructor
  · rw [updateElo_upset_win]
    decide
  · have hb := expected_1000_1500_bounds
    linarith [hb.2]

/-- Claim C2 (amended): for a winner rated 1000 and a loser rated 1500,
`calculateExpected 1000 1500` lies strictly between 0.05 and 0.06
(it is `1 / (1 + 10^(5/4)) ≈ 0.0532`), and the new ratings are exactly
1030 for the winner and 1469 for the loser. -/
theorem upset_ratings_amended :
    1 / 20 < calculateExpected 1000 1500 ∧
    calculateExpected 1000 1500 < 3 / 50 ∧
    updateElo 1000 (calculateExpected 1000 1500) 1 = 1030 ∧
    updateElo 1500 (calculateExpected 1500 1000) 0 = 1469 := by
  have hb := expected_1000_1500_bounds
  refine ⟨hb.1, ?_, updateElo_upset_win, updateElo_upset_loss⟩
  have : (1 : ℝ) / 17 < 3 / 50 + 1 / 100 := by norm_num
  linarith [hb.2]

/-- Claim C10: a single vote between pre-vote ratings `w` and `l` never
increases the total rating mass: the new ratings sum to `w + l` or to
`w + l - 1` (the floors can together lose at most one point). -/
theorem vote_sum_conserved (w l : ℤ) :
    updateElo w (calculateExpected w l) 1 + updateElo l (calculateExpected l w) 0 = w + l ∨
    updateElo w (calculateExpected w l) 1 + updateElo l (calculateExpected l w) 0 = w + l - 1 := by
  set e := calculateExpected (l : ℝ) (w : ℝ) with he
  have hsum : calculateExpected (w : ℝ) (l : ℝ) = 1 - e := by
    have := calculateExpected_add_swap (w : ℝ) (l : ℝ)
    linarith
  unfold updateElo K_FACTOR
  rw [hsum]
  have hw : ((w : ℝ) + 32 * ((1 : ℝ) - (1 - e))) = 32 * e + (w : ℝ) := by ring
  have hl : ((l : ℝ) + 32 * ((0 : ℝ) - e)) = -(32 * e) + (l : ℝ) := by ring
  rw [hw, hl, Int.floor_add_int, Int.floor_add_int, Int.floor_neg]
  have h1 : ⌊32 * e⌋ ≤ ⌈32 * e⌉ := Int.floor_le_ceil _
  have h2 : ⌈32 * e⌉ ≤ ⌊32 * e⌋ + 1 := Int.ceil_le_floor_add_one _
  omega

/-! ## VotingCoordinator (source lines 232–271)

The Firestore documents touched by a vote are modelled as an association
list from document id to its `elo` field; `transaction.get` is a fresh
lookup in the latest committed store, `transaction.update` a pointwise
overwrite.  The thrown `Error` is modelled with `Except.error` carrying
the source's message string. -/

/-- Store state: document id to current `elo`. -/
abbrev EloStore := List (String × ℤ)

/-- Fresh read of a document's `elo` inside the transaction. -/
def lookupElo : EloStore → String → Option ℤ
  | [], _ => none
  | (i, e) :: rest, docId => if i = docId then some e else lookupElo rest docId

/-- `transaction.update(ref, { elo: v })`: overwrite the `elo` of the
document with the given id. -/
def setElo : EloStore → String → ℤ → EloStore
  | [], _, _ => []
  | (i, e) :: rest, docId, v =>
      (if i = docId then (i, v) else (i, e)) :: setElo rest docId v

/-- Source `handleVote` transaction body (lines 241–260): read both
documents fresh, abort when either is missing, otherwise compute both new
ratings from the two freshly read values and write them back. -/
noncomputable def handleVote (store : EloStore) (winnerId loserId : String) :
    Except String EloStore :=
  match lookupElo store winnerId, lookupElo store loserId with
  | some winnerElo, some loserElo =>
      let expectedWinner := calculateExpected winnerElo loserElo
      let expectedLoser := calculateExpected loserElo winnerElo
      let newWinnerElo := updateElo winnerElo expectedWinner 1
      let newLoserElo := updateElo loserElo expectedLoser 0
      Except.ok (setElo (setElo store winnerId newWinnerElo) loserId newLoserElo)
  | _, _ => Except.error "作品データが見つかりません。"

/-- The committed store after a vote: the transaction's result on success,
the untouched store when the transaction aborted. -/
noncomputable def voteCommit (store : EloStore) (winnerId loserId : String) : EloStore :=
  match handleVote store winnerId loserId with
  | Except.ok store' => store'
  | Except.error _ => store

/-- Overwriting one document never changes reads of another id. -/
lemma lookupElo_setElo_ne (store : EloStore) {i j : String} (v : ℤ) (h : i ≠ j) :
    lookupElo (setElo store i v) j = lookupElo store j := by
  induction store with
  | nil => rfl
  | cons p rest ih =>
      obtain ⟨pi, pe⟩ := p
      rw [show setElo ((pi, pe) :: rest) i v =
        (if pi = i then (pi, v) else (pi, pe)) :: setElo rest i v from rfl]
      by_cases hp : pi = i
      · rw [if_pos hp]
        simp only [lookupElo]
        subst hp
        rw [if_neg h, if_neg h]
        exact ih
      · rw [if_neg hp]
        simp only [lookupElo]
        by_cases hq : pi = j
        · rw [if_pos hq, if_pos hq]
        · rw [if_neg hq, if_neg hq]
          exact ih

/-- Overwriting a present document makes later reads of it return the new
value. -/
lemma lookupElo_setElo_self (store : EloStore) {i : String} {w : ℤ} (v : ℤ)
    (h : lookupElo store i = some w) :
    lookupElo (setElo store i v) i = some v := by
  induction store with
  | nil => simp [lookupElo] at h
  | cons p rest ih =>
      obtain ⟨pi, pe⟩ := p
      rw [show setElo ((pi, pe) :: rest) i v =
        (if pi = i then (pi, v) else (pi, pe)) :: setElo rest i v from rfl]
      by_cases hp : pi = i
      · rw [if_pos hp]
        simp only [lookupElo]
        rw [if_pos hp]
      · rw [if_neg hp]
        simp only [lookupElo] at h ⊢
        rw [if_neg hp] at h ⊢
        exact ih h

/-- Claim C4: whenever both documents exist at transaction read time, the
vote commits and the two written ratings are exactly
`updateElo w (calculateExpected w l) 1` and
`updateElo l (calculateExpected l w) 0` computed from the two pre-update
ratings `w`, `l` read fresh from the latest committed store, with no
sequential dependency between the two updates. -/
theorem handleVote_fresh_symmetric (store : EloStore) (winnerId loserId : String)
    (w l : ℤ) (hw : lookupElo store winnerId = some w)
    (hl : lookupElo store loserId = some l) (hne : winnerId ≠ loserId) :
    handleVote store winnerId loserId =
      Except.ok (setElo (setElo store winnerId
        (updateElo w (calculateExpected w l) 1)) loserId
        (updateElo l (calculateExpected l w) 0)) ∧
    lookupElo (voteCommit store winnerId loserId) winnerId =
      some (updateElo w (calculateExpected w l) 1) ∧
    lookupElo (voteCommit store winnerId loserId) loserId =
      some (updateElo l (calculateExpected l w) 0) := by
  have hvote : handleVote store winnerId loserId =
      Except.ok (setElo (setElo store winnerId
        (updateElo w (calculateExpected w l) 1)) loserId
        (updateElo l (calculateExpected l w) 0)) := by
    unfold handleVote
    rw [hw, hl]
  have hcommit : voteCommit store winnerId loserId =
      setElo (setElo store winnerId
        (updateElo w (calculateExpected w l) 1)) loserId
        (updateElo l (calculateExpected l w) 0) := by
    unfold voteCommit
    rw [hvote]
  refine ⟨hvote, ?_, ?_⟩
  · rw [hcommit, lookupElo_setElo_ne _ _ (fun h => hne h.symm)]
    exact lookupElo_setElo_self store _ hw
  · rw [hcommit]
    have hl' : lookupElo (setElo store winnerId
        (updateElo w (calculateExpected w l) 1)) loserId = some l := by
      rw [lookupElo_setElo_ne _ _ hne]
      exact hl
    exact lookupElo_setElo_self _ _ hl'

/-- Witness for C4 on a two-document store with both ratings 1500. -/
theorem handleVote_fresh_symmetric_witness :
    lookupElo [("a", (1500 : ℤ)), ("b", 1500)] "a" = some 1500 ∧
    (handleVote [("a", (1500 : ℤ)), ("b", 1500)] "a" "b" =
      Except.ok (setElo (setElo [("a", (1500 : ℤ)), ("b", 1500)] "a"
        (updateElo 1500 (calculateExpected 1500 1500) 1)) "b"
        (updateElo 1500 (calculateExpected 1500 1500) 0)) ∧
    lookupElo (voteCommit [("a", (1500 : ℤ)), ("b", 1500)] "a" "b") "a" =
      some (updateElo 1500 (calculateExpected 1500 1500) 1) ∧
    lookupElo (voteCommit [("a", (1500 : ℤ)), ("b", 1500)] "a" "b") "b" =
      some (updateElo 1500 (calculateExpected 1500 1500) 0)) := by
  have h := handleVote_fresh_symmetric [("a", (1500 : ℤ)), ("b", 1500)] "a" "b"
    1500 1500 (by decide) (by decide) (by decide)
  exact ⟨by decide, by push_cast at h ⊢; exact h⟩

/-- Claim C5: when either document is missing at transaction read time the
vote aborts with the stale-match error and mutates nothing, so the
surviving record's rating is unchanged. -/
theorem handleVote_stale_aborts (store : EloStore) (winnerId loserId : String)
    (hmiss : lookupElo store winnerId = none ∨ lookupElo store loserId = none) :
    handleVote store winnerId loserId = Except.error "作品データが見つかりません。" ∧
    voteCommit store winnerId loserId = store := by
  have herr : handleVote store winnerId loserId =
      Except.error "作品データが見つかりません。" := by
    unfold handleVote
    rcases hmiss with h | h
    · rw [h]
    · rw [h]
      rcases lookupElo store winnerId with _ | w <;> rfl
  refine ⟨herr, ?_⟩
  unfold voteCommit
  rw [herr]

/-- Witness for C5: the loser was deleted before the transaction read it;
the winner's rating survives untouched. -/
theorem handleVote_stale_aborts_witness :
    (lookupElo [("a", (1500 : ℤ))] "a" = none ∨
      lookupElo [("a", (1500 : ℤ))] "b" = none) ∧
    (handleVote [("a", (1500 : ℤ))] "a" "b" =
      Except.error "作品データが見つかりません。" ∧
    voteCommit [("a", (1500 : ℤ))] "a" "b" = [("a", (1500 : ℤ))]) :=
  ⟨Or.inr (by decide),
    handleVote_stale_aborts [("a", (1500 : ℤ))] "a" "b" (Or.inr (by decide))⟩

/-! ## MatchSelector (source lines 655–680)

An entry as seen by the selector: its id and its `elo`.  The values of
`Math.random()` are passed in explicitly as rationals in `[0, 1)`:
`branchR` decides the 50% branch, `rA` and the stream `rBs` drive the
exploration draws, `rI` the exploitation draw.  A `none` result models the
source's unbounded re-draw loop not having terminated on the given draw
stream (and the out-of-range indexing that valid draws never produce). -/

structure Manga where
  id : String
  elo : ℤ
deriving DecidableEq

/-- `Math.floor(r * n)` as a natural index. -/
def jsRandIndex (r : ℚ) (n : ℕ) : ℕ := (⌊r * (n : ℚ)⌋).toNat

/-- The `while (indexA === indexB)` re-draw loop: take draws until one
differs from `indexA`. -/
def pickDistinct (indexA : ℕ) : List ℕ → Option ℕ
  | [] => none
  | b :: rest => if b = indexA then pickDistinct indexA rest else some b

/-- Source: `[...mangaList].sort((a, b) => a.elo - b.elo)` — a stable
ascending sort by `elo`. -/
def sortByElo (l : List Manga) : List Manga :=
  l.mergeSort fun a b => decide (a.elo ≤ b.elo)

/-- The two UI match states the selector can set. -/
inductive MatchState where
  | insufficient : MatchState
  | pair : Manga → Manga → MatchState
deriving DecidableEq

/-- Source `getNextMatch` (lines 655–680): with fewer than two entries set
the insufficient state; otherwise with probability one half pick two
uniform indices in the unsorted list, re-drawing the second on collision,
else pick a uniform index `i ∈ [0, n-2]` in the `elo`-sorted list and pair
the neighbours `sorted[i]`, `sorted[i+1]`. -/
def getNextMatch (mangaList : List Manga) (branchR rA : ℚ) (rBs : List ℚ)
    (rI : ℚ) : Option MatchState :=
  if mangaList.length < 2 then some MatchState.insufficient
  else
    let sortedList := sortByElo mangaList
    if branchR < 1 / 2 then
      let indexA := jsRandIndex rA mangaList.length
      (pickDistinct indexA (rBs.map fun r => jsRandIndex r mangaList.length)).bind
        fun indexB => (mangaList[indexA]?).bind
          fun a => (mangaList[indexB]?).map
            fun b => MatchState.pair a b
    else
      let indexA := jsRandIndex rI (mangaList.length - 1)
      (sortedList[indexA]?).bind
        fun a => (sortedList[indexA + 1]?).map
          fun b => MatchState.pair a b

/-- The re-draw loop never returns the colliding index. -/
lemma pickDistinct_ne {indexA : ℕ} :
    ∀ {l : List ℕ} {b : ℕ}, pickDistinct indexA l = some b → b ≠ indexA := by
  intro l
  induction l with
  | nil => intro b h; simp [pickDistinct] at h
  | cons x rest ih =>
      intro b h
      by_cases hx : x = indexA
      · rw [show pickDistinct indexA (x :: rest) = pickDistinct indexA rest by
          simp [pickDistinct, hx]] at h
        exact ih h
      · rw [show pickDistinct indexA (x :: rest) = some x by
          simp [pickDistinct, hx]] at h
        cases h
        exact hx

/-- Entries at distinct positions of a list whose mapped keys are nodup
have distinct keys. -/
lemma map_nodup_getElem_ne {α β : Type} (f : α → β) {l : List α}
    (h : (l.map f).Nodup) {i j : ℕ} {a b : α}
    (hi : l[i]? = some a) (hj : l[j]? = some b) (hij : i ≠ j) : f a ≠ f b := by
  have hi' : i < l.length := by
    by_contra hlt
    push_neg at hlt
    rw [List.getElem?_eq_none hlt] at hi
    cases hi
  have hj' : j < l.length := by
    by_contra hlt
    push_neg at hlt
    rw [List.getElem?_eq_none hlt] at hj
    cases hj
  have ha : l[i] = a := by
    have := List.getElem?_eq_getElem hi'
    rw [this] at hi
    cases hi
    rfl
  have hb : l[j] = b := by
    have := List.getElem?_eq_getElem hj'
    rw [this] at hj
    cases hj
    rfl
  have hpair := (List.nodup_iff_injective_get.mp h)
  intro hfab
  apply hij
  have hil : i < (l.map f).length := by simpa using hi'
  have hjl : j < (l.map f).length := by simpa using hj'
  have : (l.map f).get ⟨i, hil⟩ = (l.map f).get ⟨j, hjl⟩ := by
    simp only [List.get_eq_getElem, List.getElem_map]
    rw [ha, hb]
    exact hfab
  have := hpair this
  exact congrArg Fin.val this

/-- `sortByElo` permutes the entry list. -/
lemma sortByElo_perm (l : List Manga) : (sortByElo l).Perm l :=
  List.mergeSort_perm l _

/-- Ids remain nodup after sorting. -/
lemma sortByElo_nodup_ids {l : List Manga} (h : (l.map Manga.id).Nodup) :
    ((sortByElo l).map Manga.id).Nodup :=
  (((sortByElo_perm l).map Manga.id).nodup_iff).mpr h

/-- Claim C6: on an entry list with pairwise-distinct ids and at least two
entries, every pair the selector returns — under any outcome of the random
draws — consists of two entries with distinct ids. -/
theorem getNextMatch_distinct_ids (mangaList : List Manga) (branchR rA : ℚ)
    (rBs : List ℚ) (rI : ℚ) (a b : Manga)
    (hlen : 2 ≤ mangaList.length)
    (hnodup : (mangaList.map Manga.id).Nodup)
    (hpair : getNextMatch mangaList branchR rA rBs rI =
      some (MatchState.pair a b)) :
    a.id ≠ b.id := by
  unfold getNextMatch at hpair
  rw [if_neg (by omega)] at hpair
  by_cases hbr : branchR < 1 / 2
  · rw [if_pos hbr] at hpair
    simp only [Option.bind_eq_some, Option.map_eq_some'] at hpair
    obtain ⟨indexB, hpd, a', hA, b', hB, hab⟩ := hpair
    have hne := pickDistinct_ne hpd
    injection hab with h1 h2
    subst h1
    subst h2
    exact map_nodup_getElem_ne Manga.id hnodup hA hB (fun h => hne h.symm)
  · rw [if_neg hbr] at hpair
    simp only [Option.bind_eq_some, Option.map_eq_some'] at hpair
    obtain ⟨a', hA, b', hB, hab⟩ := hpair
    injection hab with h1 h2
    subst h1
    subst h2
    exact map_nodup_getElem_ne Manga.id (sortByElo_nodup_ids hnodup) hA hB
      (by omega)

/-- Witness for C6: two entries, exploration branch, first draw collides
and is re-drawn. -/
theorem getNextMatch_distinct_ids_witness :
    2 ≤ ([⟨"a", 1500⟩, ⟨"b", 1400⟩] : List Manga).length ∧
    (([⟨"a", 1500⟩, ⟨"b", 1400⟩] : List Manga).map Manga.id).Nodup ∧
    getNextMatch [⟨"a", 1500⟩, ⟨"b", 1400⟩] 0 0 [0, 1/2] 0 =
      some (MatchState.pair ⟨"a", 1500⟩ ⟨"b", 1400⟩) ∧
    (Manga.mk "a" 1500).id ≠ (Manga.mk "b" 1400).id := by
  have hmatch : getNextMatch [⟨"a", 1500⟩, ⟨"b", 1400⟩] 0 0 [0, 1/2] 0 =
      some (MatchState.pair ⟨"a", 1500⟩ ⟨"b", 1400⟩) := by
    unfold getNextMatch
    norm_num [jsRandIndex, pickDistinct]
  exact ⟨by decide, by decide, hmatch,
    getNextMatch_distinct_ids [⟨"a", 1500⟩, ⟨"b", 1400⟩] 0 0 [0, 1/2] 0
      ⟨"a", 1500⟩ ⟨"b", 1400⟩ (by decide) (by decide) hmatch⟩

/-- Claim C7: with fewer than two entries the selector returns no pair and
produces the explicit insufficient-entries state. -/
theorem getNextMatch_insufficient (mangaList : List Manga) (branchR rA : ℚ)
    (rBs : List ℚ) (rI : ℚ) (hlen : mangaList.length < 2) :
    getNextMatch mangaList branchR rA rBs rI = some MatchState.insufficient := by
  unfold getNextMatch
  rw [if_pos hlen]

/-- Witness for C7 on a single-entry list. -/
theorem getNextMatch_insufficient_witness :
    ([⟨"a", 1500⟩] : List Manga).length < 2 ∧
    getNextMatch [⟨"a", 1500⟩] 0 0 [] 0 = some MatchState.insufficient :=
  ⟨by decide, getNextMatch_insufficient [⟨"a", 1500⟩] 0 0 [] 0 (by decide)⟩

/-- The sorted list is ascending in `elo`. -/
lemma sortByElo_sorted (l : List Manga) :
    List.Pairwise (fun a b : Manga => a.elo ≤ b.elo) (sortByElo l) := by
  have h : List.Pairwise
      (fun a b : Manga => decide (a.elo ≤ b.elo) = true) (sortByElo l) := by
    apply List.sorted_mergeSort
    · intro a b c hab hbc
      simp only [decide_eq_true_eq] at *
      omega
    · intro a b
      simp only [Bool.or_eq_true, decide_eq_true_eq]
      omega
  exact h.imp fun hab => by simpa using hab

/-- A draw in `[0, 1)` floors to an index below `m`. -/
lemma jsRandIndex_lt {r : ℚ} {m : ℕ} (h0 : 0 ≤ r) (h1 : r < 1) (hm : 1 ≤ m) :
    jsRandIndex r m < m := by
  unfold jsRandIndex
  have hmQ : (0 : ℚ) < m := by exact_mod_cast hm
  have hfloor : ⌊r * (m : ℚ)⌋ < (m : ℤ) := by
    apply Int.floor_lt.mpr
    push_cast
    calc r * m < 1 * m := mul_lt_mul_of_pos_right h1 hmQ
    _ = m := one_mul _
  have hfl0 : 0 ≤ ⌊r * (m : ℚ)⌋ := Int.floor_nonneg.mpr (by positivity)
  omega

/-- `Math.floor(r * m)` equals `j` exactly when `r` lies in the half-open
interval `[j/m, (j+1)/m)`; all these intervals have width `1/m`, so a
uniform draw yields a uniform index. -/
lemma jsRandIndex_eq_iff {r : ℚ} {m : ℕ} (h0 : 0 ≤ r) (hm : 1 ≤ m) (j : ℕ) :
    jsRandIndex r m = j ↔ ((j : ℚ) / m ≤ r ∧ r < ((j : ℚ) + 1) / m) := by
  unfold jsRandIndex
  have hmQ : (0 : ℚ) < m := by exact_mod_cast hm
  have htn : (⌊r * (m : ℚ)⌋.toNat = j) ↔ ⌊r * (m : ℚ)⌋ = (j : ℤ) := by
    have := Int.floor_nonneg.mpr (show (0 : ℚ) ≤ r * m by positivity)
    omega
  rw [htn, Int.floor_eq_iff, div_le_iff₀ hmQ, lt_div_iff₀ hmQ]
  push_cast
  rfl

/-- Claim C8: in the exploitation branch (taken when the branch draw is at
least one half) on a list of `n ≥ 2` entries, the selector sorts the list
ascending by rating, draws `i = ⌊rI * (n-1)⌋ ∈ [0, n-2]` — each index
being hit exactly by draws in an interval of width `1/(n-1)`, so uniform
draws give uniform indices — and returns the adjacent sorted pair
`(sorted[i], sorted[i+1])`. -/
theorem getNextMatch_exploitation (mangaList : List Manga) (branchR rA : ℚ)
    (rBs : List ℚ) (rI : ℚ)
    (hlen : 2 ≤ mangaList.length) (hbr : ¬ branchR < 1 / 2)
    (h0 : 0 ≤ rI) (h1 : rI < 1) :
    List.Pairwise (fun a b : Manga => a.elo ≤ b.elo) (sortByElo mangaList) ∧
    (sortByElo mangaList).Perm mangaList ∧
    jsRandIndex rI (mangaList.length - 1) ≤ mangaList.length - 2 ∧
    (∀ j : ℕ, j ≤ mangaList.length - 2 →
      (jsRandIndex rI (mangaList.length - 1) = j ↔
        ((j : ℚ) / ((mangaList.length - 1 : ℕ) : ℚ) ≤ rI ∧
         rI < ((j : ℚ) + 1) / ((mangaList.length - 1 : ℕ) : ℚ)))) ∧
    ∃ a b : Manga,
      (sortByElo mangaList)[jsRandIndex rI (mangaList.length - 1)]? = some a ∧
      (sortByElo mangaList)[jsRandIndex rI (mangaList.length - 1) + 1]? = some b ∧
      getNextMatch mangaList branchR rA rBs rI = some (MatchState.pair a b) := by
  have hn1 : 1 ≤ mangaList.length - 1 := by omega
  have hsortlen : (sortByElo mangaList).length = mangaList.length :=
    (sortByElo_perm mangaList).length_eq
  have hidx : jsRandIndex rI (mangaList.length - 1) < mangaList.length - 1 :=
    jsRandIndex_lt h0 h1 hn1
  have hi0 : jsRandIndex rI (mangaList.length - 1) < (sortByElo mangaList).length := by
    omega
  have hi1 : jsRandIndex rI (mangaList.length - 1) + 1 < (sortByElo mangaList).length := by
    omega
  refine ⟨sortByElo_sorted mangaList, sortByElo_perm mangaList, by omega,
    fun j _ => jsRandIndex_eq_iff h0 hn1 j, ?_⟩
  refine ⟨(sortByElo mangaList)[jsRandIndex rI (mangaList.length - 1)],
    (sortByElo mangaList)[jsRandIndex rI (mangaList.length - 1) + 1],
    List.getElem?_eq_getElem hi0, List.getElem?_eq_getElem hi1, ?_⟩
  unfold getNextMatch
  rw [if_neg (by omega), if_neg hbr]
  simp only [List.getElem?_eq_getElem hi0, List.getElem?_eq_getElem hi1,
    Option.some_bind, Option.map_some']

/-- Witness for C8: two entries, branch draw one half, index draw zero. -/
theorem getNextMatch_exploitation_witness :
    2 ≤ ([⟨"a", 1500⟩, ⟨"b", 1400⟩] : List Manga).length ∧
    ¬ ((1 : ℚ) / 2 < 1 / 2) ∧ (0 : ℚ) ≤ 0 ∧ (0 : ℚ) < 1 ∧
    (List.Pairwise (fun a b : Manga => a.elo ≤ b.elo)
      (sortByElo [⟨"a", 1500⟩, ⟨"b", 1400⟩]) ∧
    (sortByElo [⟨"a", 1500⟩, ⟨"b", 1400⟩]).Perm [⟨"a", 1500⟩, ⟨"b", 1400⟩] ∧
    jsRandIndex 0 (([⟨"a", 1500⟩, ⟨"b", 1400⟩] : List Manga).length - 1) ≤
      ([⟨"a", 1500⟩, ⟨"b", 1400⟩] : List Manga).length - 2 ∧
    (∀ j : ℕ, j ≤ ([⟨"a", 1500⟩, ⟨"b", 1400⟩] : List Manga).length - 2 →
      (jsRandIndex 0 (([⟨"a", 1500⟩, ⟨"b", 1400⟩] : List Manga).length - 1) = j ↔
        ((j : ℚ) / ((([⟨"a", 1500⟩, ⟨"b", 1400⟩] : List Manga).length - 1 : ℕ) : ℚ) ≤ 0 ∧
         (0 : ℚ) < ((j : ℚ) + 1) /
           ((([⟨"a", 1500⟩, ⟨"b", 1400⟩] : List Manga).length - 1 : ℕ) : ℚ)))) ∧
    ∃ a b : Manga,
      (sortByElo [⟨"a", 1500⟩, ⟨"b", 1400⟩])[jsRandIndex 0
        (([⟨"a", 1500⟩, ⟨"b", 1400⟩] : List Manga).length - 1)]? = some a ∧
      (sortByElo [⟨"a", 1500⟩, ⟨"b", 1400⟩])[jsRandIndex 0
        (([⟨"a", 1500⟩, ⟨"b", 1400⟩] : List Manga).length - 1) + 1]? = some b ∧
      getNextMatch [⟨"a", 1500⟩, ⟨"b", 1400⟩] (1 / 2) 0 [] 0 =
        some (MatchState.pair a b)) :=
  ⟨by decide, by norm_num, le_refl 0, by norm_num,
    getNextMatch_exploitation [⟨"a", 1500⟩, ⟨"b", 1400⟩] (1 / 2) 0 [] 0
      (by decide) (by norm_num) (le_refl 0) (by norm_num)⟩

/-! ## Deletion (source `handleDelete`, lines 274–315)

The record fields the delete path reads are the stored password and the
blob path; the app state pairs the record store with the set of existing
blob paths.  A delete that passes the password check performs two
sequential mutations, modelled as the emitted action list
`[deleteBlob storagePath, deleteRecord id]` (the source deletes the
Storage object *first*, lines 291–296); a failure point between them is a
proper prefix of that list. -/

structure MangaRec where
  password : String
  storagePath : String
deriving DecidableEq

structure AppState where
  records : List (String × MangaRec)
  blobs : List String
deriving DecidableEq

/-- `getDoc` for the delete path. -/
def lookupRec : List (String × MangaRec) → String → Option MangaRec
  | [], _ => none
  | (i, r) :: rest, docId => if i = docId then some r else lookupRec rest docId

/-- The two mutating operations a successful delete performs. -/
inductive DeleteAction where
  | deleteBlob : String → DeleteAction
  | deleteRecord : String → DeleteAction
deriving DecidableEq

/-- Source `handleDelete`: read the record, compare the caller's password
with the stored one in cleartext, and only on a match emit the two
deletes — Storage object first (`deleteObject`), Firestore document
second (`deleteDoc`).  `none` covers both failure returns (missing record
and wrong password), which mutate nothing. -/
def handleDelete (st : AppState) (docId password : String) :
    Option (List DeleteAction) :=
  match lookupRec st.records docId with
  | none => none
  | some r =>
      if r.password = password then
        some [DeleteAction.deleteBlob r.storagePath, DeleteAction.deleteRecord docId]
      else none

/-- Effect of one mutating operation on the app state. -/
def applyAction (st : AppState) : DeleteAction → AppState
  | DeleteAction.deleteBlob p =>
      { records := st.records, blobs := st.blobs.filter fun q => decide (q ≠ p) }
  | DeleteAction.deleteRecord docId =>
      { records := st.records.filter fun q => decide (q.1 ≠ docId),
        blobs := st.blobs }

/-- State after the first `k` operations of a delete completed and the
rest failed. -/
def applyActions (st : AppState) (acts : List DeleteAction) : AppState :=
  acts.foldl applyAction st

/-- A concrete one-record state used to refute claim C9's ordering. -/
def delDemoState : AppState :=
  { records := [("m1", ⟨"1234", "p1"⟩)], blobs := ["p1"] }

/-- Counterexample to claim C9 as stated: on a concrete store the
verified delete emits the blob delete *first* (not the record delete),
and at the failure point between the two deletes the record survives
while its blob is already gone — the state the claim says is never
reachable. -/
theorem handleDelete_order_counterexample :
    handleDelete delDemoState "m1" "1234" =
      some [DeleteAction.deleteBlob "p1", DeleteAction.deleteRecord "m1"] ∧
    (∀ acts, handleDelete delDemoState "m1" "1234" = some acts →
      acts.head? ≠ some (DeleteAction.deleteRecord "m1")) ∧
    lookupRec (applyActions delDemoState [DeleteAction.deleteBlob "p1"]).records "m1" =
      some ⟨"1234", "p1"⟩ ∧
    "p1" ∉ (applyActions delDemoState [DeleteAction.deleteBlob "p1"]).blobs := by
  refine ⟨by decide, ?_, by decide, by decide⟩
  intro acts hacts
  have : acts = [DeleteAction.deleteBlob "p1", DeleteAction.deleteRecord "m1"] := by
    have h : handleDelete delDemoState "m1" "1234" =
        some [DeleteAction.deleteBlob "p1", DeleteAction.deleteRecord "m1"] := by decide
    rw [h] at hacts
    cases hacts
    rfl
  rw [this]
  decide

/-- A deleted blob path is absent afterwards. -/
lemma applyAction_deleteBlob_not_mem (st : AppState) (p : String) :
    p ∉ (applyAction st (DeleteAction.deleteBlob p)).blobs := by
  intro hmem
  unfold applyAction at hmem
  have := List.of_mem_filter hmem
  simp at this

/-- Claim C9 (amended): the delete operation, after verifying the
caller-supplied password equals the stored one, deletes the blob first
and the store record second (sequentially, not transactionally): the
emitted operations are exactly `[deleteBlob path, deleteRecord id]`, and
at every failure point the record is only ever gone once the blob is gone
too — an orphaned blob whose record is gone is unreachable, while the
failure point between the deletes leaves a surviving record whose blob is
gone. -/
theorem handleDelete_blob_first (st : AppState) (docId password : String)
    (acts : List DeleteAction) (hdel : handleDelete st docId password = some acts) :
    (∃ r, lookupRec st.records docId = some r ∧ r.password = password ∧
      acts = [DeleteAction.deleteBlob r.storagePath, DeleteAction.deleteRecord docId] ∧
      ∀ k : ℕ,
        ¬ (lookupRec (applyActions st (acts.take k)).records docId = none ∧
           r.storagePath ∈ (applyActions st (acts.take k)).blobs)) := by
  unfold handleDelete at hdel
  split at hdel
  · cases hdel
  · rename_i r hrec
    split at hdel
    · rename_i hpw
      cases hdel
      refine ⟨r, hrec, hpw, rfl, ?_⟩
      intro k ⟨hgone, hblob⟩
      match k with
      | 0 =>
          rw [show ([DeleteAction.deleteBlob r.storagePath,
            DeleteAction.deleteRecord docId].take 0) = [] from rfl] at hgone
          rw [show applyActions st [] = st from rfl] at hgone
          rw [hrec] at hgone
          cases hgone
      | 1 =>
          rw [show ([DeleteAction.deleteBlob r.storagePath,
            DeleteAction.deleteRecord docId].take 1) =
            [DeleteAction.deleteBlob r.storagePath] from rfl] at hblob
          exact applyAction_deleteBlob_not_mem st r.storagePath hblob
      | (n + 2) =>
          rw [show ([DeleteAction.deleteBlob r.storagePath,
            DeleteAction.deleteRecord docId].take (n + 2)) =
            [DeleteAction.deleteBlob r.storagePath,
             DeleteAction.deleteRecord docId] from by simp] at hblob
          have hmem : r.storagePath ∈
              (applyAction st (DeleteAction.deleteBlob r.storagePath)).blobs := by
            have hstep : applyActions st [DeleteAction.deleteBlob r.storagePath,
                DeleteAction.deleteRecord docId] =
                applyAction (applyAction st (DeleteAction.deleteBlob r.storagePath))
                  (DeleteAction.deleteRecord docId) := rfl
            rw [hstep] at hblob
            exact hblob
          exact applyAction_deleteBlob_not_mem st r.storagePath hmem
    · cases hdel

/-- Witness for C9 (amended) on the concrete one-record state. -/
theorem handleDelete_blob_first_witness :
    handleDelete delDemoState "m1" "1234" =
      some [DeleteAction.deleteBlob "p1", DeleteAction.deleteRecord "m1"] ∧
    (∃ r, lookupRec delDemoState.records "m1" = some r ∧ r.password = "1234" ∧
      [DeleteAction.deleteBlob "p1", DeleteAction.deleteRecord "m1"] =
        [DeleteAction.deleteBlob r.storagePath, DeleteAction.deleteRecord "m1"] ∧
      ∀ k : ℕ,
        ¬ (lookupRec (applyActions delDemoState
            ([DeleteAction.deleteBlob "p1",
              DeleteAction.deleteRecord "m1"].take k)).records "m1" = none ∧
           r.storagePath ∈ (applyActions delDemoState
            ([DeleteAction.deleteBlob "p1",
              DeleteAction.deleteRecord "m1"].take k)).blobs)) :=
  ⟨by decide, handleDelete_blob_first delDemoState "m1" "1234"
    [DeleteAction.deleteBlob "p1", DeleteAction.deleteRecord "m1"] (by decide)⟩

end MangaApp
